import Mathlib

/-!
Shallow embedding of the CHIP-8 virtual machine implemented in `src/chip8.cpp`
(`class Chip8VM` together with the parts of `Keypad` and `App` that the core
semantics depend on).  Machine integers are modelled as `Nat` with explicit
`% 2^w` at every point where the C++ code performs a narrowing conversion;
fixed-size `std::array` fields are modelled as total functions `Nat → Nat`
(the C++ index type guarantees stored cells are bytes / 16-bit words, which
theorems record as hypotheses where it matters).
-/

namespace Chip8

/-- Pointwise update of a function, modelling a single array cell write
`a[i] = x`. -/
def upd (f : Nat → Nat) (i x : Nat) : Nat → Nat := fun j => if j = i then x else f j

/-- The sequential write loop `for (i = 0; i < k; ++i) dst[base + i] = g i`. -/
def writeSeq (m : Nat → Nat) (base : Nat) (g : Nat → Nat) (k : Nat) : Nat → Nat :=
  (List.range k).foldl (fun acc i => upd acc (base + i) (g i)) m

/-- `Chip8VM::State`: memory (`std::array<u8,4096>`), registers
(`std::array<u8,16>`), index register `I` (u16), program counter (u16),
call stack (`std::array<u16,16>`), stack pointer, delay and sound timers. -/
structure State where
  mem : Nat → Nat
  v : Nat → Nat
  I : Nat
  pc : Nat
  stack : Nat → Nat
  sp : Nat
  DT : Nat
  ST : Nat

/-- `Chip8VM`: machine state, framebuffer `FB::pix` (index `y*64+x`), and the
wait-for-key latch `waitKey` / `waitReg`. -/
structure VM where
  st : State
  fb : Nat → Nat
  waitKey : Bool
  waitReg : Nat

/-- `FB::at(x,y)` addresses `pix[y*64 + x]`. -/
def fbIdx (x y : Nat) : Nat := y * 64 + x

/-- `Keypad::down`: `i < keys.size() ? keys[i] : false`. -/
def keyDown (keys : Nat → Bool) (i : Nat) : Bool := if i < 16 then keys i else false

/-- Instruction fetch `(st.mem[st.pc] << 8) | st.mem[st.pc+1]`; the operands
are `u8` cells, hence the `% 256`, and the combined value is `256*hi + lo`. -/
def fetch (s : State) : Nat := (s.mem s.pc % 256) * 256 + s.mem (s.pc + 1) % 256

/-- The `8xy*` ALU switch of `Chip8VM::step`, acting on the register file.
Each branch performs the same reads and writes, in the same order, as the
corresponding `case` in the C++ `switch(op&0xF)`. -/
def alu (k x y : Nat) (v : Nat → Nat) : Nat → Nat :=
  if k = 0 then upd v x (v y)
  else if k = 1 then upd v x (v x ||| v y)
  else if k = 2 then upd v x (v x &&& v y)
  else if k = 3 then upd v x (v x ^^^ v y)
  else if k = 4 then
    -- u16 s = v[x] + v[y]; v[0xF] = s > 0xFF; v[x] = u8(s);
    let s := v x + v y
    let v1 := upd v 15 (if 255 < s then 1 else 0)
    upd v1 x (s % 256)
  else if k = 5 then
    -- v[0xF] = v[x] > v[y]; v[x] -= v[y];  (u8 wrap-around subtraction)
    let v1 := upd v 15 (if v y < v x then 1 else 0)
    upd v1 x ((v1 x + 256 - v1 y) % 256)
  else if k = 6 then
    -- v[0xF] = v[x] & 1; v[x] >>= 1;
    let v1 := upd v 15 (v x &&& 1)
    upd v1 x (v1 x >>> 1)
  else if k = 7 then
    -- v[0xF] = v[y] > v[x]; v[x] = u8(v[y] - v[x]);
    let v1 := upd v 15 (if v x < v y then 1 else 0)
    upd v1 x ((v1 y + 256 - v1 x) % 256)
  else if k = 14 then
    -- v[0xF] = (v[x] & 0x80) >> 7; v[x] <<= 1;  (u8 wrap)
    let v1 := upd v 15 ((v x &&& 0x80) >>> 7)
    upd v1 x ((v1 x <<< 1) % 256)
  else v

/-- Body of the innermost Dxyn loop for one column `col`: if sprite bit
`0x80 >> col` is set, XOR the wrapped target pixel and record a collision
when the pixel currently reads 1.  The accumulator is `(pix, vF)`. -/
def drawCol (px sy sprite col : Nat) (acc : (Nat → Nat) × Nat) : (Nat → Nat) × Nat :=
  if sprite &&& (0x80 >>> col) ≠ 0 then
    let sx := (px + col) % 64
    let p := acc.1 (fbIdx sx sy)
    (upd acc.1 (fbIdx sx sy) (p ^^^ 1), if p = 1 then 1 else acc.2)
  else acc

/-- One sprite row of Dxyn: the `for (col = 0; col < 8; ++col)` loop. -/
def drawRow (px sy sprite : Nat) (acc : (Nat → Nat) × Nat) : (Nat → Nat) × Nat :=
  (List.range 8).foldl (fun a col => drawCol px sy sprite col a) acc

/-- The Dxyn sprite loop: `v[0xF] = 0`, then for each `row < n` XOR-draw the
sprite byte `mem[I+row]` (a `u8` cell) at row `(py+row) % 32`.  Returns the
updated pixel array and the final collision flag. -/
def drawSprite (mem : Nat → Nat) (I px py n : Nat) (fb : Nat → Nat) : (Nat → Nat) × Nat :=
  (List.range n).foldl (fun a row => drawRow px ((py + row) % 32) (mem (I + row) % 256) a) (fb, 0)

/-- Partial column loop: the first `k` iterations of `drawRow`. -/
def drawRowAux (px sy sprite k : Nat) (acc : (Nat → Nat) × Nat) : (Nat → Nat) × Nat :=
  (List.range k).foldl (fun a col => drawCol px sy sprite col a) acc

/-- Partial row loop: the first `k` iterations of `drawSprite`. -/
def drawSpriteAux (mem : Nat → Nat) (I px py k : Nat) (acc : (Nat → Nat) × Nat) :
    (Nat → Nat) × Nat :=
  (List.range k).foldl (fun a row => drawRow px ((py + row) % 32) (mem (I + row) % 256) a) acc

/-- `Fx33`: `mem[I] = v/100; mem[I+1] = (v/10)%10; mem[I+2] = v%10`. -/
def bcdStore (m : Nat → Nat) (I vx : Nat) : Nat → Nat :=
  upd (upd (upd m I (vx / 100)) (I + 1) (vx / 10 % 10)) (I + 2) (vx % 10)

/-- `Fx55`: `for (i = 0; i <= x; ++i) mem[I+i] = v[i]`. -/
def storeRegs (m : Nat → Nat) (I : Nat) (v : Nat → Nat) (x : Nat) : Nat → Nat :=
  writeSeq m I v (x + 1)

/-- `Fx65`: `for (i = 0; i <= x; ++i) v[i] = mem[I+i]`. -/
def loadRegs (v : Nat → Nat) (m : Nat → Nat) (I : Nat) (x : Nat) : Nat → Nat :=
  writeSeq v 0 (fun i => m (I + i)) (x + 1)

/-- The decode/execute part of `Chip8VM::step` applied to an already fetched
opcode `op`, after the `st.pc += 2` retirement (performed first below, as in
the source).  The C++ `switch (op & 0xF000)` is rendered as a chain of tests
on the top nibble `op / 4096`; the decoded fields are
`nnn = op & 0xFFF = op % 4096`, `nn = op & 0xFF = op % 256`,
`n = op & 0xF = op % 16`, `x = (op >> 8) & 0xF = op / 256 % 16`,
`y = (op >> 4) & 0xF = op / 16 % 16`.  `key` is the keypad state and `rnd`
the value returned by `rand()`.  Returns the new machine and the `draw` flag. -/
def exec (vm : VM) (key : Nat → Bool) (rnd : Nat) (op : Nat) : VM × Bool :=
  let s0 := vm.st
  let s := { s0 with pc := (s0.pc + 2) % 65536 }
  let nnn := op % 4096
  let nn := op % 256
  let n := op % 16
  let x := op / 256 % 16
  let y := op / 16 % 16
  let fam := op / 4096
  if fam = 0 then
    if nn = 0xE0 then ({ vm with st := s, fb := fun _ => 0 }, true)
    else if nn = 0xEE then
      if s.sp ≠ 0 then ({ vm with st := { s with pc := s.stack (s.sp - 1), sp := s.sp - 1 } }, false)
      else ({ vm with st := s }, false)
    else ({ vm with st := s }, false)
  else if fam = 1 then ({ vm with st := { s with pc := nnn } }, false)
  else if fam = 2 then
    if s.sp < 16 then
      ({ vm with st := { s with stack := upd s.stack s.sp s.pc, sp := s.sp + 1, pc := nnn } }, false)
    else ({ vm with st := s }, false)
  else if fam = 3 then
    ({ vm with st := if s.v x = nn then { s with pc := (s.pc + 2) % 65536 } else s }, false)
  else if fam = 4 then
    ({ vm with st := if s.v x ≠ nn then { s with pc := (s.pc + 2) % 65536 } else s }, false)
  else if fam = 5 then
    ({ vm with st := if n = 0 ∧ s.v x = s.v y then { s with pc := (s.pc + 2) % 65536 } else s }, false)
  else if fam = 6 then ({ vm with st := { s with v := upd s.v x nn } }, false)
  else if fam = 7 then ({ vm with st := { s with v := upd s.v x ((s.v x + nn) % 256) } }, false)
  else if fam = 8 then ({ vm with st := { s with v := alu n x y s.v } }, false)
  else if fam = 9 then
    ({ vm with st := if n = 0 ∧ s.v x ≠ s.v y then { s with pc := (s.pc + 2) % 65536 } else s }, false)
  else if fam = 10 then ({ vm with st := { s with I := nnn } }, false)
  else if fam = 11 then ({ vm with st := { s with pc := (nnn + s.v 0) % 65536 } }, false)
  else if fam = 12 then ({ vm with st := { s with v := upd s.v x ((rnd &&& 0xFF) &&& nn) } }, false)
  else if fam = 13 then
    let px := s.v x % 64
    let py := s.v y % 32
    let r := drawSprite s.mem s.I px py n vm.fb
    ({ vm with st := { s with v := upd s.v 15 r.2 }, fb := r.1 }, true)
  else if fam = 14 then
    if nn = 0x9E then
      ({ vm with st := if keyDown key (s.v x) then { s with pc := (s.pc + 2) % 65536 } else s }, false)
    else if nn = 0xA1 then
      ({ vm with st := if ¬ keyDown key (s.v x) then { s with pc := (s.pc + 2) % 65536 } else s }, false)
    else ({ vm with st := s }, false)
  else if fam = 15 then
    if nn = 0x07 then ({ vm with st := { s with v := upd s.v x s.DT } }, false)
    else if nn = 0x0A then ({ vm with st := s, waitKey := true, waitReg := x }, false)
    else if nn = 0x15 then ({ vm with st := { s with DT := s.v x } }, false)
    else if nn = 0x18 then ({ vm with st := { s with ST := s.v x } }, false)
    else if nn = 0x1E then ({ vm with st := { s with I := (s.I + s.v x) % 65536 } }, false)
    else if nn = 0x29 then ({ vm with st := { s with I := 0x50 + (s.v x &&& 0xF) * 5 } }, false)
    else if nn = 0x33 then ({ vm with st := { s with mem := bcdStore s.mem s.I (s.v x) } }, false)
    else if nn = 0x55 then ({ vm with st := { s with mem := storeRegs s.mem s.I s.v x } }, false)
    else if nn = 0x65 then ({ vm with st := { s with v := loadRegs s.v s.mem s.I x } }, false)
    else ({ vm with st := s }, false)
  else ({ vm with st := s }, false)

/-- `Chip8VM::step`: fetch at `pc`, then decode and execute. -/
def step (vm : VM) (key : Nat → Bool) (rnd : Nat) : VM × Bool :=
  exec vm key rnd (fetch vm.st)

/-- `Chip8VM::timerTick`: decrement `DT` if positive; decrement `ST` if
positive and report a tone ("BEEP") exactly when `ST` is still positive
after that decrement. -/
def timerTick (s : State) : State × Bool :=
  let s1 := if 0 < s.DT then { s with DT := s.DT - 1 } else s
  if 0 < s1.ST then
    let s2 := { s1 with ST := s1.ST - 1 }
    (s2, if 0 < s2.ST then true else false)
  else (s1, false)

/-- `Chip8VM::feedKey`: if the wait latch is set, write the delivered key
into the latched register and clear the latch. -/
def feedKey (vm : VM) (k : Nat) : VM :=
  if vm.waitKey then
    { vm with st := { vm.st with v := upd vm.st.v vm.waitReg k }, waitKey := false }
  else vm

/-- The byte-copy loop `for (i = 0; i < bs.size(); ++i) mem[base+i] = bs[i]`. -/
def memCopy (m : Nat → Nat) (base : Nat) (bs : List Nat) : Nat → Nat :=
  writeSeq m base (fun i => bs.getD i 0) bs.length

/-- `Chip8VM::load`: the ROM byte stream, or `none` when the file cannot be
opened/read.  Fails (returning `false`, state untouched) when the stream is
unreadable or `0x200 + length > 4096`; otherwise copies the bytes to
`0x200..` and sets `pc = 0x200`. -/
def load (rom : Option (List Nat)) (vm : VM) : Bool × VM :=
  match rom with
  | none => (false, vm)
  | some bytes =>
    if 4096 < 0x200 + bytes.length then (false, vm)
    else (true, { vm with st :=
      { vm.st with mem := memCopy vm.st.mem 0x200 bytes, pc := 0x200 } })

/-- `chip8c::kFontSprites`: 16 glyphs of 5 bytes each. -/
def fontSprites : List Nat :=
  [0xF0, 0x90, 0x90, 0x90, 0xF0, 0x20, 0x60, 0x20, 0x20, 0x70,
   0xF0, 0x10, 0xF0, 0x80, 0xF0, 0xF0, 0x10, 0xF0, 0x10, 0xF0,
   0x90, 0x90, 0xF0, 0x10, 0x10, 0xF0, 0x80, 0xF0, 0x10, 0xF0,
   0xF0, 0x80, 0xF0, 0x90, 0xF0, 0xF0, 0x10, 0x20, 0x40, 0x40,
   0xF0, 0x90, 0xF0, 0x90, 0xF0, 0xF0, 0x90, 0xF0, 0x10, 0xF0,
   0xF0, 0x90, 0xF0, 0x90, 0x90, 0xE0, 0x90, 0xE0, 0x90, 0xE0,
   0xF0, 0x80, 0x80, 0x80, 0xF0, 0xE0, 0x90, 0x90, 0x90, 0xE0,
   0xF0, 0x80, 0xF0, 0x80, 0xF0, 0xF0, 0x80, 0xF0, 0x80, 0x80]

/-- `Chip8VM::reset` as run by the constructor: zeroed state, `pc = 0x200`,
font copied to `0x050`. -/
def initState : State :=
  { mem := memCopy (fun _ => 0) 0x50 fontSprites, v := fun _ => 0, I := 0, pc := 0x200,
    stack := fun _ => 0, sp := 0, DT := 0, ST := 0 }

/-- A freshly constructed `Chip8VM` (constructor runs `reset()`; the wait
latch members are initialized `false`/`0`). -/
def initVM : VM :=
  { st := initState, fb := fun _ => 0, waitKey := false, waitReg := 0 }

/-- Whether every raw `std::array` index that one `step()` call reads or
writes is inside the 4096-byte memory: the fetch touches `mem[pc]` and
`mem[pc+1]`; `Dxyn` reads `mem[I+row]` for `row < n`; `Fx33` writes
`mem[I..I+2]`; `Fx55`/`Fx65` touch `mem[I..I+x]`.  Register, stack, keypad
and framebuffer indices are always in range (4-bit fields, a guarded stack
pointer, `Keypad::down`'s bounds test, and wrapped pixel coordinates), so
they need no tracking here. -/
def stepAccessOk (vm : VM) : Bool :=
  let s := vm.st
  let op := fetch s
  let nn := op % 256
  let n := op % 16
  let x := op / 256 % 16
  decide (s.pc + 1 < 4096) &&
    (if op / 4096 = 13 then decide (∀ r, r < n → s.I + r < 4096)
     else if op / 4096 = 15 then
       if nn = 0x33 then decide (s.I + 2 < 4096)
       else if nn = 0x55 ∨ nn = 0x65 then decide (∀ i, i < x + 1 → s.I + i < 4096)
       else true
     else true)

/-- Concrete machine: opcode `0xD011` (draw the 8×1 sprite `0xFF` at
`(V0, V1) = (60, 0)`) with an all-zero framebuffer. -/
def vmC5 : VM :=
  ⟨⟨(fun a => if a = 512 then 0xD0 else if a = 513 then 0x11 else 0xFF),
    (fun i => if i = 0 then 60 else 0), 0, 512, fun _ => 0, 0, 0, 0⟩,
   fun _ => 0, false, 0⟩

/-- Machine after loading the ROM `A2 08 D0 11 D0 11 D0 11 80`: set
`I = 0x208` (the trailing sprite byte `0x80`), then draw the same 8×1
sprite at `(V0, V1) = (0, 0)` three times. -/
def vmC6a : VM :=
  (load (some [0xA2, 0x08, 0xD0, 0x11, 0xD0, 0x11, 0xD0, 0x11, 0x80]) initVM).2

/-- ...after `A208`. -/
def vmC6b : VM := (step vmC6a (fun _ => false) 0).1

/-- ...after the first draw: pixel (0,0) is set. -/
def vmC6c : VM := (step vmC6b (fun _ => false) 0).1

/-- ...after the second draw — the first of the back-to-back pair executed
on a framebuffer whose target pixel already reads 1. -/
def vmC6d : VM := (step vmC6c (fun _ => false) 0).1

/-- ...after the third draw — the second of the pair. -/
def vmC6e : VM := (step vmC6d (fun _ => false) 0).1

/-- Concrete machine for the amended double-draw theorem: opcodes `D011`
twice, sprite byte `0x80` everywhere else, all-zero framebuffer. -/
def vmC6w : VM :=
  ⟨⟨(fun a => if a = 512 then 0xD0 else if a = 513 then 0x11
      else if a = 514 then 0xD0 else if a = 515 then 0x11 else 0x80),
    fun _ => 0, 0, 512, fun _ => 0, 0, 0, 0⟩,
   fun _ => 0, false, 0⟩

/-- Machine right after loading the ROM `F1 0A 61 2A` (wait-for-key into V1,
then set V1 = 0x2A). -/
def vmC1a : VM := (load (some [0xF1, 0x0A, 0x61, 0x2A]) initVM).2

/-- ...after executing `F10A`: the wait latch is set. -/
def vmC1b : VM := (step vmC1a (fun _ => false) 0).1

/-- ...after a further `step()` with no key delivered. -/
def vmC1c : VM := (step vmC1b (fun _ => false) 0).1

/-- Machine right after loading the ROM `1F FF` (jump to 0xFFF). -/
def vmC2a : VM := (load (some [0x1F, 0xFF]) initVM).2

/-- ...after executing the jump: `pc = 0xFFF`. -/
def vmC2b : VM := (step vmC2a (fun _ => false) 0).1

/-- Concrete machine: opcode `0x8F04` (add V0 into VF) with `VF = 0xFF`,
`V0 = 1`, so the true sum exceeds 255. -/
def vmC3a : VM :=
  ⟨⟨(fun a => if a = 512 then 0x8F else if a = 513 then 0x04 else 0),
    (fun i => if i = 15 then 0xFF else if i = 0 then 1 else 0), 0, 512, fun _ => 0, 0, 0, 0⟩,
   fun _ => 0, false, 0⟩

/-- Concrete machine: opcode `0x80F5` (V0 -= VF) with `V0 = 3`, `VF = 5`. -/
def vmC3b : VM :=
  ⟨⟨(fun a => if a = 512 then 0x80 else if a = 513 then 0xF5 else 0),
    (fun i => if i = 0 then 3 else if i = 15 then 5 else 0), 0, 512, fun _ => 0, 0, 0, 0⟩,
   fun _ => 0, false, 0⟩

/-- Concrete machine: opcode `0x8014` (V0 += V1) with `V0 = 0xFF`, `V1 = 1`. -/
def vmC3w : VM :=
  ⟨⟨(fun a => if a = 512 then 0x80 else if a = 513 then 0x14 else 0),
    (fun i => if i = 0 then 0xFF else if i = 1 then 1 else 0), 0, 512, fun _ => 0, 0, 0, 0⟩,
   fun _ => 0, false, 0⟩

/-- Concrete machine: opcode `0x8015` (V0 -= V1) with `V0 = 5`, `V1 = 3`. -/
def vmC3w2 : VM :=
  ⟨⟨(fun a => if a = 512 then 0x80 else if a = 513 then 0x15 else 0),
    (fun i => if i = 0 then 5 else if i = 1 then 3 else 0), 0, 512, fun _ => 0, 0, 0, 0⟩,
   fun _ => 0, false, 0⟩

/-- Concrete machine: opcodes `F255` then `F265` at `pc = 0x200`, with
`I = 0x300` and `V0, V1, V2 = 7, 11, 13`. -/
def vmC8 : VM :=
  ⟨⟨(fun a => if a = 512 then 0xF2 else if a = 513 then 0x55
      else if a = 514 then 0xF2 else if a = 515 then 0x65 else 0),
    (fun i => if i = 0 then 7 else if i = 1 then 11 else if i = 2 then 13 else 0),
    0x300, 512, fun _ => 0, 0, 0, 0⟩,
   fun _ => 0, false, 0⟩

/-- Concrete machine used to witness the stack-boundary theorem: opcode
`0x2100` at `pc = 0x200` with a full call stack (`sp = 16`). -/
def vmC7 : VM :=
  ⟨⟨(fun a => if a = 512 then 0x21 else 0), fun _ => 0, 0, 512, fun _ => 0, 16, 0, 0⟩,
   fun _ => 0, false, 0⟩

/-- Concrete machine: opcode `0x00EE` at `pc = 0x200` with an empty stack. -/
def vmC7b : VM :=
  ⟨⟨(fun a => if a = 513 then 0xEE else 0), fun _ => 0, 0, 512, fun _ => 0, 0, 0, 0⟩,
   fun _ => 0, false, 0⟩

/-- Concrete machine: opcode `0x8F14` (add V1 into VF) with `VF = 0xFF`,
`V1 = 1`. -/
def vmC10 : VM :=
  ⟨⟨(fun a => if a = 512 then 0x8F else if a = 513 then 0x14 else 0),
    (fun i => if i = 15 then 0xFF else if i = 1 then 1 else 0), 0, 512, fun _ => 0, 0, 0, 0⟩,
   fun _ => 0, false, 0⟩

theorem upd_apply (f : Nat → Nat) (i x j : Nat) :
    upd f i x j = if j = i then x else f j := rfl

theorem writeSeq_zero (m : Nat → Nat) (base : Nat) (g : Nat → Nat) :
    writeSeq m base g 0 = m := rfl

theorem writeSeq_succ (m : Nat → Nat) (base : Nat) (g : Nat → Nat) (k : Nat) :
    writeSeq m base g (k + 1) = upd (writeSeq m base g k) (base + k) (g k) := by
  unfold writeSeq
  rw [List.range_succ, List.foldl_append]
  rfl

/-- The write loop leaves cells outside `[base, base+k)` alone and ends with
`g (a - base)` in cell `a` inside the window. -/
theorem writeSeq_apply (m : Nat → Nat) (base : Nat) (g : Nat → Nat) :
    ∀ k a, writeSeq m base g k a = if base ≤ a ∧ a < base + k then g (a - base) else m a := by
  intro k
  induction k with
  | zero =>
    intro a
    rw [writeSeq_zero, if_neg (by omega)]
  | succ k ih =>
    intro a
    rw [writeSeq_succ, upd_apply]
    by_cases h : a = base + k
    · subst h
      rw [if_pos rfl, if_pos (by omega)]
      congr 1
      omega
    · rw [if_neg h, ih a]
      by_cases h2 : base ≤ a ∧ a < base + k
      · rw [if_pos h2, if_pos (by omega)]
      · rw [if_neg h2, if_neg (by omega)]

theorem drawRow_eq_aux (px sy sprite : Nat) (acc : (Nat → Nat) × Nat) :
    drawRow px sy sprite acc = drawRowAux px sy sprite 8 acc := rfl

theorem drawSprite_eq_aux (mem : Nat → Nat) (I px py n : Nat) (fb : Nat → Nat) :
    drawSprite mem I px py n fb = drawSpriteAux mem I px py n (fb, 0) := rfl

theorem drawRowAux_succ (px sy sprite k : Nat) (acc : (Nat → Nat) × Nat) :
    drawRowAux px sy sprite (k + 1) acc =
      drawCol px sy sprite k (drawRowAux px sy sprite k acc) := by
  unfold drawRowAux
  rw [List.range_succ, List.foldl_append]
  rfl

theorem drawSpriteAux_succ (mem : Nat → Nat) (I px py k : Nat) (acc : (Nat → Nat) × Nat) :
    drawSpriteAux mem I px py (k + 1) acc =
      drawRow px ((py + k) % 32) (mem (I + k) % 256) (drawSpriteAux mem I px py k acc) := by
  unfold drawSpriteAux
  rw [List.range_succ, List.foldl_append]
  rfl

/-- Distinct columns of one sprite row hit distinct framebuffer cells. -/
theorem col_idx_inj (px sy c1 c2 : Nat) (h1 : c1 < 64) (h2 : c2 < 64)
    (h : fbIdx ((px + c1) % 64) sy = fbIdx ((px + c2) % 64) sy) : c1 = c2 := by
  unfold fbIdx at h
  omega

/-- Distinct rows of one sprite hit distinct display rows. -/
theorem row_idx_inj (py r1 r2 : Nat) (h1 : r1 < 32) (h2 : r2 < 32)
    (h : (py + r1) % 32 = (py + r2) % 32) : r1 = r2 := by
  omega

/-- A framebuffer index determines the (wrapped) pixel coordinates. -/
theorem fbIdx_inj (x1 y1 x2 y2 : Nat) (h1 : x1 < 64) (h2 : x2 < 64)
    (h : fbIdx x1 y1 = fbIdx x2 y2) : x1 = x2 ∧ y1 = y2 := by
  unfold fbIdx at h
  omega

theorem drawCol_fst (px sy sprite col : Nat) (acc : (Nat → Nat) × Nat) (i : Nat) :
    (drawCol px sy sprite col acc).1 i =
      if sprite &&& (0x80 >>> col) ≠ 0 ∧ i = fbIdx ((px + col) % 64) sy
      then acc.1 i ^^^ 1 else acc.1 i := by
  by_cases hb : sprite &&& (0x80 >>> col) ≠ 0
  · by_cases hi : i = fbIdx ((px + col) % 64) sy
    · subst hi
      simp [drawCol, upd, hb]
    · simp [drawCol, upd, hb, hi]
  · simp [drawCol, hb]

theorem drawCol_snd (px sy sprite col : Nat) (acc : (Nat → Nat) × Nat) :
    (drawCol px sy sprite col acc).2 =
      if sprite &&& (0x80 >>> col) ≠ 0 ∧ acc.1 (fbIdx ((px + col) % 64) sy) = 1
      then 1 else acc.2 := by
  by_cases hb : sprite &&& (0x80 >>> col) ≠ 0
  · by_cases hp : acc.1 (fbIdx ((px + col) % 64) sy) = 1
    · simp [drawCol, hb, hp]
    · simp [drawCol, hb, hp]
  · simp [drawCol, hb]

/-- Cellwise/flagwise characterization of the first `k` columns of one
sprite row, relative to the framebuffer and flag the row started from:
cells hit by no drawn column are unchanged, each drawn column XORs its
(uniquely owned) cell once, and the flag becomes 1 exactly when it already
was 1 or some drawn column found its cell reading 1. -/
theorem drawRowAux_spec (px sy sprite : Nat) (fb : Nat → Nat) (vf : Nat) :
    ∀ k, k ≤ 8 →
      (∀ i, (∀ c, c < k → sprite &&& (0x80 >>> c) ≠ 0 → i ≠ fbIdx ((px + c) % 64) sy) →
         (drawRowAux px sy sprite k (fb, vf)).1 i = fb i) ∧
      (∀ c, c < k → sprite &&& (0x80 >>> c) ≠ 0 →
         (drawRowAux px sy sprite k (fb, vf)).1 (fbIdx ((px + c) % 64) sy) =
           fb (fbIdx ((px + c) % 64) sy) ^^^ 1) ∧
      ((drawRowAux px sy sprite k (fb, vf)).2 = 1 ↔
         (vf = 1 ∨ ∃ c, c < k ∧ sprite &&& (0x80 >>> c) ≠ 0 ∧
           fb (fbIdx ((px + c) % 64) sy) = 1)) ∧
      ((drawRowAux px sy sprite k (fb, vf)).2 = vf ∨
         (drawRowAux px sy sprite k (fb, vf)).2 = 1) := by
  intro k
  induction k with
  | zero =>
    intro _
    refine ⟨fun i _ => rfl, fun c hc => absurd hc (by omega), ?_, Or.inl rfl⟩
    constructor
    · exact fun h => Or.inl h
    · rintro (h | ⟨c, hc, _⟩)
      · exact h
      · omega
  | succ k ih =>
    intro hk8
    obtain ⟨ih1, ih2, ih3, ih4⟩ := ih (by omega)
    rw [drawRowAux_succ]
    by_cases hb : sprite &&& (0x80 >>> k) ≠ 0
    · have hAk : (drawRowAux px sy sprite k (fb, vf)).1 (fbIdx ((px + k) % 64) sy) =
          fb (fbIdx ((px + k) % 64) sy) := by
        apply ih1
        intro c hc hcb heq
        exact absurd (col_idx_inj px sy k c (by omega) (by omega) heq) (by omega)
      refine ⟨?_, ?_, ?_, ?_⟩
      · intro i hi
        rw [drawCol_fst,
          if_neg (fun h => (hi k (by omega) hb) h.2)]
        exact ih1 i (fun c hc hcb => hi c (by omega) hcb)
      · intro c hc hcb
        rcases Nat.lt_succ_iff_lt_or_eq.mp hc with hlt | heq
        · have hne : ¬ (sprite &&& (0x80 >>> k) ≠ 0 ∧
              fbIdx ((px + c) % 64) sy = fbIdx ((px + k) % 64) sy) := by
            rintro ⟨_, hieq⟩
            exact absurd (col_idx_inj px sy c k (by omega) (by omega) hieq) (by omega)
          rw [drawCol_fst, if_neg hne]
          exact ih2 c hlt hcb
        · subst heq
          rw [drawCol_fst, if_pos ⟨hb, rfl⟩, hAk]
      · rw [drawCol_snd]
        by_cases hcol : (drawRowAux px sy sprite k (fb, vf)).1 (fbIdx ((px + k) % 64) sy) = 1
        · rw [if_pos ⟨hb, hcol⟩]
          constructor
          · intro _
            exact Or.inr ⟨k, by omega, hb, by rw [← hAk]; exact hcol⟩
          · intro _
            rfl
        · rw [if_neg (fun h => hcol h.2), ih3]
          constructor
          · rintro (h | ⟨c, hc, hcb, hcf⟩)
            · exact Or.inl h
            · exact Or.inr ⟨c, by omega, hcb, hcf⟩
          · rintro (h | ⟨c, hc, hcb, hcf⟩)
            · exact Or.inl h
            · rcases Nat.lt_succ_iff_lt_or_eq.mp hc with hlt | heq
              · exact Or.inr ⟨c, hlt, hcb, hcf⟩
              · subst heq
                exact absurd (hAk.trans hcf) hcol
      · rw [drawCol_snd]
        by_cases hcol : (drawRowAux px sy sprite k (fb, vf)).1 (fbIdx ((px + k) % 64) sy) = 1
        · rw [if_pos ⟨hb, hcol⟩]
          exact Or.inr rfl
        · rw [if_neg (fun h => hcol h.2)]
          exact ih4
    · have hid : drawCol px sy sprite k (drawRowAux px sy sprite k (fb, vf)) =
          drawRowAux px sy sprite k (fb, vf) := by
        unfold drawCol
        rw [if_neg hb]
      rw [hid]
      refine ⟨?_, ?_, ?_, ih4⟩
      · intro i hi
        exact ih1 i (fun c hc hcb => hi c (by omega) hcb)
      · intro c hc hcb
        rcases Nat.lt_succ_iff_lt_or_eq.mp hc with hlt | heq
        · exact ih2 c hlt hcb
        · subst heq
          exact absurd hcb hb
      · rw [ih3]
        constructor
        · rintro (h | ⟨c, hc, hcb, hcf⟩)
          · exact Or.inl h
          · exact Or.inr ⟨c, by omega, hcb, hcf⟩
        · rintro (h | ⟨c, hc, hcb, hcf⟩)
          · exact Or.inl h
          · rcases Nat.lt_succ_iff_lt_or_eq.mp hc with hlt | heq
            · exact Or.inr ⟨c, hlt, hcb, hcf⟩
            · subst heq
              exact absurd hcb hb

/-- Cellwise/flagwise characterization of the first `k` rows of a sprite
draw, relative to the original framebuffer: every cell not hit by a drawn
sprite bit is unchanged, each drawn bit XORs its (uniquely owned) wrapped
cell once, and the final flag is 1 exactly when it started at 1 or some
drawn bit's target cell read 1 in the original framebuffer. -/
theorem drawSpriteAux_spec (mem : Nat → Nat) (I px py : Nat) (fb : Nat → Nat) (vf : Nat) :
    ∀ k, k ≤ 16 →
      (∀ i, (∀ r c, r < k → c < 8 → mem (I + r) % 256 &&& (0x80 >>> c) ≠ 0 →
           i ≠ fbIdx ((px + c) % 64) ((py + r) % 32)) →
         (drawSpriteAux mem I px py k (fb, vf)).1 i = fb i) ∧
      (∀ r c, r < k → c < 8 → mem (I + r) % 256 &&& (0x80 >>> c) ≠ 0 →
         (drawSpriteAux mem I px py k (fb, vf)).1 (fbIdx ((px + c) % 64) ((py + r) % 32)) =
           fb (fbIdx ((px + c) % 64) ((py + r) % 32)) ^^^ 1) ∧
      ((drawSpriteAux mem I px py k (fb, vf)).2 = 1 ↔
         (vf = 1 ∨ ∃ r, ∃ c, r < k ∧ c < 8 ∧ mem (I + r) % 256 &&& (0x80 >>> c) ≠ 0 ∧
           fb (fbIdx ((px + c) % 64) ((py + r) % 32)) = 1)) ∧
      ((drawSpriteAux mem I px py k (fb, vf)).2 = vf ∨
         (drawSpriteAux mem I px py k (fb, vf)).2 = 1) := by
  intro k
  induction k with
  | zero =>
    intro _
    refine ⟨fun i _ => rfl, fun r c hr => absurd hr (by omega), ?_, Or.inl rfl⟩
    constructor
    · exact fun h => Or.inl h
    · rintro (h | ⟨r, c, hr, _⟩)
      · exact h
      · omega
  | succ k ih =>
    intro hk16
    obtain ⟨ih1, ih2, ih3, ih4⟩ := ih (by omega)
    rw [drawSpriteAux_succ, drawRow_eq_aux]
    have row := drawRowAux_spec px ((py + k) % 32) (mem (I + k) % 256)
      (drawSpriteAux mem I px py k (fb, vf)).1 (drawSpriteAux mem I px py k (fb, vf)).2
      8 (le_refl 8)
    rw [Prod.mk.eta] at row
    obtain ⟨r1, r2, r3, r4⟩ := row
    have hBrow : ∀ c, (drawSpriteAux mem I px py k (fb, vf)).1
        (fbIdx ((px + c) % 64) ((py + k) % 32)) =
        fb (fbIdx ((px + c) % 64) ((py + k) % 32)) := by
      intro c
      apply ih1
      intro rr cc hrr hcc hbit heq
      have hco := fbIdx_inj _ _ _ _ (Nat.mod_lt _ (by omega)) (Nat.mod_lt _ (by omega)) heq
      have := row_idx_inj py k rr (by omega) (by omega) hco.2
      omega
    refine ⟨?_, ?_, ?_, ?_⟩
    · intro i hi
      rw [r1 i (fun c hc hcb => hi k c (by omega) hc hcb)]
      exact ih1 i (fun r c hr hc hcb => hi r c (by omega) hc hcb)
    · intro r c hr hc hcb
      rcases Nat.lt_succ_iff_lt_or_eq.mp hr with hlt | heq
      · have hfr : (drawRowAux px ((py + k) % 32) (mem (I + k) % 256) 8
            (drawSpriteAux mem I px py k (fb, vf))).1
            (fbIdx ((px + c) % 64) ((py + r) % 32)) =
            (drawSpriteAux mem I px py k (fb, vf)).1
            (fbIdx ((px + c) % 64) ((py + r) % 32)) := by
          apply r1
          intro cc hcc hbit heq
          have hco := fbIdx_inj _ _ _ _ (Nat.mod_lt _ (by omega)) (Nat.mod_lt _ (by omega)) heq
          have := row_idx_inj py r k (by omega) (by omega) hco.2
          omega
        rw [hfr]
        exact ih2 r c hlt hc hcb
      · subst heq
        rw [r2 c hc hcb, hBrow c]
    · rw [r3, ih3]
      constructor
      · rintro ((h | ⟨r, c, hr, hc, hbit, hfb⟩) | ⟨c, hc, hbit, hB⟩)
        · exact Or.inl h
        · exact Or.inr ⟨r, c, by omega, hc, hbit, hfb⟩
        · refine Or.inr ⟨k, c, by omega, hc, hbit, ?_⟩
          rw [← hBrow c]
          exact hB
      · rintro (h | ⟨r, c, hr, hc, hbit, hfb⟩)
        · exact Or.inl (Or.inl h)
        · rcases Nat.lt_succ_iff_lt_or_eq.mp hr with hlt | heq
          · exact Or.inl (Or.inr ⟨r, c, hlt, hc, hbit, hfb⟩)
          · subst heq
            refine Or.inr ⟨c, hc, hbit, ?_⟩
            rw [hBrow c]
            exact hfb
    · rcases r4 with h | h
      · rcases ih4 with h2 | h2
        · exact Or.inl (h.trans h2)
        · exact Or.inr (h.trans h2)
      · exact Or.inr h

/-- Each pixel targeted by the sprite ends as its old value XORed with the
corresponding sprite bit. -/
theorem drawSprite_pix (mem : Nat → Nat) (I px py n : Nat) (fb : Nat → Nat) (hn : n ≤ 16)
    (r c : Nat) (hr : r < n) (hc : c < 8) :
    (drawSprite mem I px py n fb).1 (fbIdx ((px + c) % 64) ((py + r) % 32)) =
      fb (fbIdx ((px + c) % 64) ((py + r) % 32)) ^^^
        (if mem (I + r) % 256 &&& (0x80 >>> c) ≠ 0 then 1 else 0) := by
  rw [drawSprite_eq_aux]
  obtain ⟨a1, a2, a3, a4⟩ := drawSpriteAux_spec mem I px py fb 0 n hn
  by_cases hbit : mem (I + r) % 256 &&& (0x80 >>> c) ≠ 0
  · rw [if_pos hbit]
    exact a2 r c hr hc hbit
  · rw [if_neg hbit, Nat.xor_zero]
    apply a1
    intro rr cc hrr hcc hbb heq
    obtain ⟨hxeq, hyeq⟩ :=
      fbIdx_inj _ _ _ _ (Nat.mod_lt _ (by omega)) (Nat.mod_lt _ (by omega)) heq
    have hre : r = rr := row_idx_inj py r rr (by omega) (by omega) hyeq
    have hce : c = cc := by omega
    subst hre
    subst hce
    exact hbit hbb

/-- Pixels not targeted by any set sprite bit are unchanged by the draw. -/
theorem drawSprite_untouched (mem : Nat → Nat) (I px py n : Nat) (fb : Nat → Nat)
    (hn : n ≤ 16) (i : Nat)
    (hi : ∀ r c, r < n → c < 8 → mem (I + r) % 256 &&& (0x80 >>> c) ≠ 0 →
       i ≠ fbIdx ((px + c) % 64) ((py + r) % 32)) :
    (drawSprite mem I px py n fb).1 i = fb i := by
  rw [drawSprite_eq_aux]
  exact (drawSpriteAux_spec mem I px py fb 0 n hn).1 i hi

/-- The returned flag is 1 exactly when some set sprite bit lands on a pixel
that read 1 in the original framebuffer; otherwise it is 0. -/
theorem drawSprite_vf (mem : Nat → Nat) (I px py n : Nat) (fb : Nat → Nat) (hn : n ≤ 16) :
    ((drawSprite mem I px py n fb).2 = 1 ↔
      ∃ r, ∃ c, r < n ∧ c < 8 ∧ mem (I + r) % 256 &&& (0x80 >>> c) ≠ 0 ∧
        fb (fbIdx ((px + c) % 64) ((py + r) % 32)) = 1) ∧
    ((drawSprite mem I px py n fb).2 = 0 ∨ (drawSprite mem I px py n fb).2 = 1) := by
  rw [drawSprite_eq_aux]
  obtain ⟨a1, a2, a3, a4⟩ := drawSpriteAux_spec mem I px py fb 0 n hn
  refine ⟨?_, a4⟩
  rw [a3]
  constructor
  · rintro (h | h)
    · omega
    · exact h
  · exact fun h => Or.inr h

/-- Cellwise view of the byte-copy loop. -/
theorem memCopy_apply (m : Nat → Nat) (base : Nat) (bs : List Nat) (a : Nat) :
    memCopy m base bs a =
      if base ≤ a ∧ a < base + bs.length then bs.getD (a - base) 0 else m a := by
  simp only [memCopy, writeSeq_apply]

/-- Cellwise view of the `Fx55` store loop. -/
theorem storeRegs_apply (m : Nat → Nat) (I : Nat) (v : Nat → Nat) (x a : Nat) :
    storeRegs m I v x a =
      if I ≤ a ∧ a < I + (x + 1) then v (a - I) else m a := by
  simp only [storeRegs, writeSeq_apply]

/-- Cellwise view of the `Fx65` load loop. -/
theorem loadRegs_apply (v : Nat → Nat) (m : Nat → Nat) (I : Nat) (x j : Nat) :
    loadRegs v m I x j = if j < x + 1 then m (I + j) else v j := by
  simp only [loadRegs, writeSeq_apply]
  by_cases h : j < x + 1
  · rw [if_pos (by omega), if_pos h]
    simp
  · rw [if_neg (by omega), if_neg h]

theorem step_eq (vm : VM) (key : Nat → Bool) (rnd : Nat) :
    step vm key rnd = exec vm key rnd (fetch vm.st) := rfl

theorem exec_alu (vm : VM) (key : Nat → Bool) (rnd : Nat) (op : Nat)
    (hf : op / 4096 = 8) :
    exec vm key rnd op =
      ({ vm with st := { vm.st with
          pc := (vm.st.pc + 2) % 65536,
          v := alu (op % 16) (op / 256 % 16) (op / 16 % 16) vm.st.v } }, false) := by
  simp only [exec, hf]
  norm_num

theorem exec_draw (vm : VM) (key : Nat → Bool) (rnd : Nat) (op : Nat)
    (hf : op / 4096 = 13) :
    exec vm key rnd op =
      ({ vm with
          st := { vm.st with
            pc := (vm.st.pc + 2) % 65536,
            v := upd vm.st.v 15 ((drawSprite vm.st.mem vm.st.I (vm.st.v (op / 256 % 16) % 64)
                    (vm.st.v (op / 16 % 16) % 32) (op % 16) vm.fb).2) },
          fb := (drawSprite vm.st.mem vm.st.I (vm.st.v (op / 256 % 16) % 64)
                    (vm.st.v (op / 16 % 16) % 32) (op % 16) vm.fb).1 }, true) := by
  simp only [exec, hf]
  norm_num

theorem exec_store (vm : VM) (key : Nat → Bool) (rnd : Nat) (op x : Nat)
    (hf : op / 4096 = 15) (hnn : op % 256 = 0x55) (hx : op / 256 % 16 = x) :
    exec vm key rnd op =
      ({ vm with st := { vm.st with
          pc := (vm.st.pc + 2) % 65536,
          mem := storeRegs vm.st.mem vm.st.I vm.st.v x } }, false) := by
  simp only [exec, hf, hnn, hx]
  norm_num

theorem exec_load65 (vm : VM) (key : Nat → Bool) (rnd : Nat) (op x : Nat)
    (hf : op / 4096 = 15) (hnn : op % 256 = 0x65) (hx : op / 256 % 16 = x) :
    exec vm key rnd op =
      ({ vm with st := { vm.st with
          pc := (vm.st.pc + 2) % 65536,
          v := loadRegs vm.st.v vm.st.mem vm.st.I x } }, false) := by
  simp only [exec, hf, hnn, hx]
  norm_num

/-- C4: one `timerTick()` call decrements `delayTimer` if it is positive
(otherwise leaves it 0), decrements `soundTimer` if it is positive
(otherwise leaves it 0), and emits the tone signal exactly when the sound
timer is still positive after its decrement; so `ST = 1` decrements to 0
with no tone and `ST = 2` decrements to 1 with a tone. -/
theorem timerTick_spec (s : State) :
    (0 < s.DT → (timerTick s).1.DT = s.DT - 1) ∧
    (s.DT = 0 → (timerTick s).1.DT = 0) ∧
    (0 < s.ST → (timerTick s).1.ST = s.ST - 1) ∧
    (s.ST = 0 → (timerTick s).1.ST = 0) ∧
    ((timerTick s).2 = true ↔ 0 < s.ST ∧ 0 < (timerTick s).1.ST) := by
  unfold timerTick
  by_cases hdt : 0 < s.DT <;> by_cases hst : 0 < s.ST <;>
    simp [hdt, hst] <;> omega

theorem timerTick_spec_witness :
    0 < (2 : Nat) ∧
    (timerTick ⟨fun _ => 0, fun _ => 0, 0, 0x200, fun _ => 0, 0, 0, 2⟩).1.ST = 2 - 1 ∧
    (timerTick ⟨fun _ => 0, fun _ => 0, 0, 0x200, fun _ => 0, 0, 0, 2⟩).2 = true ∧
    (timerTick ⟨fun _ => 0, fun _ => 0, 0, 0x200, fun _ => 0, 0, 0, 1⟩).1.ST = 0 ∧
    (timerTick ⟨fun _ => 0, fun _ => 0, 0, 0x200, fun _ => 0, 0, 0, 1⟩).2 = false :=
  ⟨by decide,
   (timerTick_spec ⟨fun _ => 0, fun _ => 0, 0, 0x200, fun _ => 0, 0, 0, 2⟩).2.2.1 (by decide),
   by decide, by decide, by decide⟩

/-- C7: with a full call stack (`sp = 16`), `2nnn` drops the call — stack,
stack pointer and jump target are untouched and only the usual `pc += 2`
advance happens; with an empty stack, `00EE` is a no-op apart from the same
advance.  The result equality pins every other field of the machine. -/
theorem stack_overflow_underflow_noop :
    (∀ (vm : VM) (key : Nat → Bool) (rnd : Nat),
       fetch vm.st / 4096 = 2 → vm.st.sp = 16 →
       step vm key rnd = ({ vm with st := { vm.st with
          pc := (vm.st.pc + 2) % 65536 } }, false)) ∧
    (∀ (vm : VM) (key : Nat → Bool) (rnd : Nat),
       fetch vm.st / 4096 = 0 → fetch vm.st % 256 = 0xEE → vm.st.sp = 0 →
       step vm key rnd = ({ vm with st := { vm.st with
          pc := (vm.st.pc + 2) % 65536 } }, false)) := by
  constructor
  · intro vm key rnd hf hsp
    rw [step_eq]
    simp only [exec, hf, hsp]
    norm_num
  · intro vm key rnd hf hnn hsp
    rw [step_eq]
    simp only [exec, hf, hnn, hsp]
    norm_num

theorem stack_overflow_underflow_noop_witness :
    (fetch vmC7.st / 4096 = 2 ∧ vmC7.st.sp = 16 ∧
     step vmC7 (fun _ => false) 0 = ({ vmC7 with st := { vmC7.st with
        pc := (vmC7.st.pc + 2) % 65536 } }, false)) ∧
    (fetch vmC7b.st / 4096 = 0 ∧ fetch vmC7b.st % 256 = 0xEE ∧ vmC7b.st.sp = 0 ∧
     step vmC7b (fun _ => false) 0 = ({ vmC7b with st := { vmC7b.st with
        pc := (vmC7b.st.pc + 2) % 65536 } }, false)) :=
  ⟨⟨by decide, by decide,
    stack_overflow_underflow_noop.1 vmC7 (fun _ => false) 0 (by decide) (by decide)⟩,
   ⟨by decide, by decide, by decide,
    stack_overflow_underflow_noop.2 vmC7b (fun _ => false) 0 (by decide) (by decide) (by decide)⟩⟩

/-- C9: `load` fails exactly when the image cannot be read (`none`) or
`0x200 + length > 4096`, in which case the machine is returned untouched;
on success it copies the bytes unmodified to `0x200..`, leaves every other
memory cell (in particular the font region below `0x200`) and all other
state alone, and sets `pc = 0x200`. -/
theorem load_spec :
    (∀ vm : VM, (load none vm).1 = false ∧ (load none vm).2 = vm) ∧
    (∀ (vm : VM) (bs : List Nat), 4096 < 0x200 + bs.length →
       (load (some bs) vm).1 = false ∧ (load (some bs) vm).2 = vm) ∧
    (∀ (vm : VM) (bs : List Nat), 0x200 + bs.length ≤ 4096 →
       (load (some bs) vm).1 = true ∧
       (load (some bs) vm).2.st.pc = 0x200 ∧
       (∀ i, i < bs.length → (load (some bs) vm).2.st.mem (0x200 + i) = bs.getD i 0) ∧
       (∀ a, a < 0x200 → (load (some bs) vm).2.st.mem a = vm.st.mem a) ∧
       (∀ a, 0x200 + bs.length ≤ a → (load (some bs) vm).2.st.mem a = vm.st.mem a) ∧
       (load (some bs) vm).2.st.v = vm.st.v ∧
       (load (some bs) vm).2.st.I = vm.st.I ∧
       (load (some bs) vm).2.st.stack = vm.st.stack ∧
       (load (some bs) vm).2.st.sp = vm.st.sp ∧
       (load (some bs) vm).2.st.DT = vm.st.DT ∧
       (load (some bs) vm).2.st.ST = vm.st.ST ∧
       (load (some bs) vm).2.fb = vm.fb ∧
       (load (some bs) vm).2.waitKey = vm.waitKey) := by
  refine ⟨fun vm => ⟨rfl, rfl⟩, fun vm bs h => ?_, fun vm bs h => ?_⟩
  · have hl : load (some bs) vm = (false, vm) := by
      simp only [load, if_pos h]
    rw [hl]
    exact ⟨rfl, rfl⟩
  · have hl : load (some bs) vm = (true, { vm with st :=
        { vm.st with mem := memCopy vm.st.mem 0x200 bs, pc := 0x200 } }) := by
      simp only [load, if_neg (by omega : ¬ 4096 < 0x200 + bs.length)]
    rw [hl]
    refine ⟨rfl, rfl, fun i hi => ?_, fun a ha => ?_, fun a ha => ?_,
      rfl, rfl, rfl, rfl, rfl, rfl, rfl, rfl⟩
    · show memCopy vm.st.mem 0x200 bs (0x200 + i) = bs.getD i 0
      rw [memCopy_apply, if_pos (by omega)]
      have hsub : 0x200 + i - 0x200 = i := by omega
      rw [hsub]
    · show memCopy vm.st.mem 0x200 bs a = vm.st.mem a
      rw [memCopy_apply, if_neg (by omega)]
    · show memCopy vm.st.mem 0x200 bs a = vm.st.mem a
      rw [memCopy_apply, if_neg (by omega)]

theorem load_spec_witness :
    (0x200 + [1, 2, 3].length ≤ 4096) ∧
    (load (some [1, 2, 3]) initVM).1 = true ∧
    (load (some [1, 2, 3]) initVM).2.st.pc = 0x200 ∧
    (load (some [1, 2, 3]) initVM).2.st.mem (0x200 + 0) = 1 := by
  have h := load_spec.2.2 initVM [1, 2, 3] (by norm_num)
  refine ⟨by norm_num, h.1, h.2.1, ?_⟩
  have h2 := h.2.2.1 0 (by norm_num)
  simpa using h2

/-- The `8xy4` branch in isolation: flag write first, then the result. -/
theorem alu_add (x y : Nat) (v : Nat → Nat) :
    alu 4 x y v =
      upd (upd v 15 (if 255 < v x + v y then 1 else 0)) x ((v x + v y) % 256) := by
  simp only [alu]
  norm_num

/-- The `8xy5` branch in isolation: flag write first, then the subtraction,
whose operands are read from the register file after the flag write. -/
theorem alu_sub (x y : Nat) (v : Nat → Nat) :
    alu 5 x y v =
      upd (upd v 15 (if v y < v x then 1 else 0)) x
        ((upd v 15 (if v y < v x then 1 else 0) x + 256 -
          upd v 15 (if v y < v x then 1 else 0) y) % 256) := by
  simp only [alu]
  norm_num

/-- C3 counterexample: executed on `8F04` (an `8xy4` with x = 0xF) with
`VF = 0xFF`, `V0 = 1`, the true sum exceeds 255 yet the final VF is 0, not
the claimed carry 1; executed on `80F5` (an `8xy5` with y = 0xF) with
`V0 = 3`, `VF = 5`, the final V0 is 3, not the claimed wrapped difference
`(3 - 5) mod 256 = 254`. -/
theorem alu_flag_aliasing_cex :
    ((step vmC3a (fun _ => false) 0).1.st.v 15 = 0 ∧
       255 < vmC3a.st.v 15 + vmC3a.st.v 0) ∧
    ((step vmC3b (fun _ => false) 0).1.st.v 0 = 3 ∧
       (vmC3b.st.v 0 + 256 - vmC3b.st.v 15) % 256 = 254) := by
  decide

/-- C3 (amended): for 8-bit register contents, `8xy4` with destination
`x ≠ 0xF` sets Vx to the 8-bit wrapped sum and VF to 1 iff the true sum
exceeds 255; `8xy5` with `x ≠ 0xF` and `y ≠ 0xF` sets Vx to the wrapped
difference Vx − Vy and VF to 1 iff Vx > Vy held before the operation.
(When x = 0xF the result write overwrites the flag; when y = 0xF in `8xy5`
the subtrahend is read back after the flag write — see the counterexample.) -/
theorem alu_add_sub_spec :
    (∀ (vm : VM) (key : Nat → Bool) (rnd : Nat) (x y : Nat),
       x < 16 → y < 16 → x ≠ 15 →
       vm.st.v x < 256 → vm.st.v y < 256 →
       fetch vm.st = 0x8000 + 256 * x + 16 * y + 4 →
       (step vm key rnd).1.st.v x = (vm.st.v x + vm.st.v y) % 256 ∧
       (step vm key rnd).1.st.v 15 = (if 255 < vm.st.v x + vm.st.v y then 1 else 0)) ∧
    (∀ (vm : VM) (key : Nat → Bool) (rnd : Nat) (x y : Nat),
       x < 16 → y < 16 → x ≠ 15 → y ≠ 15 →
       vm.st.v x < 256 → vm.st.v y < 256 →
       fetch vm.st = 0x8000 + 256 * x + 16 * y + 5 →
       (step vm key rnd).1.st.v x = (vm.st.v x + 256 - vm.st.v y) % 256 ∧
       (step vm key rnd).1.st.v 15 = (if vm.st.v y < vm.st.v x then 1 else 0)) := by
  constructor
  · intro vm key rnd x y hx hy hx15 hvx hvy hf
    rw [step_eq, exec_alu vm key rnd _ (by omega)]
    have h16 : fetch vm.st % 16 = 4 := by omega
    have hxd : fetch vm.st / 256 % 16 = x := by omega
    have hyd : fetch vm.st / 16 % 16 = y := by omega
    simp only [h16, hxd, hyd, alu_add, upd]
    constructor <;> simp [hx15]
    exact fun h => absurd h.symm hx15
  · intro vm key rnd x y hx hy hx15 hy15 hvx hvy hf
    rw [step_eq, exec_alu vm key rnd _ (by omega)]
    have h16 : fetch vm.st % 16 = 5 := by omega
    have hxd : fetch vm.st / 256 % 16 = x := by omega
    have hyd : fetch vm.st / 16 % 16 = y := by omega
    simp only [h16, hxd, hyd, alu_sub, upd]
    constructor <;> simp [hx15, hy15]
    exact fun h => absurd h.symm hx15

theorem alu_add_sub_spec_witness :
    ((step vmC3w (fun _ => false) 0).1.st.v 0 = (vmC3w.st.v 0 + vmC3w.st.v 1) % 256 ∧
     (step vmC3w (fun _ => false) 0).1.st.v 15 =
       (if 255 < vmC3w.st.v 0 + vmC3w.st.v 1 then 1 else 0) ∧
     (vmC3w.st.v 0 + vmC3w.st.v 1) % 256 = 0 ∧ 255 < vmC3w.st.v 0 + vmC3w.st.v 1) ∧
    ((step vmC3w2 (fun _ => false) 0).1.st.v 0 =
       (vmC3w2.st.v 0 + 256 - vmC3w2.st.v 1) % 256 ∧
     (step vmC3w2 (fun _ => false) 0).1.st.v 15 =
       (if vmC3w2.st.v 1 < vmC3w2.st.v 0 then 1 else 0) ∧
     (vmC3w2.st.v 0 + 256 - vmC3w2.st.v 1) % 256 = 2 ∧ vmC3w2.st.v 1 < vmC3w2.st.v 0) := by
  have h1 := alu_add_sub_spec.1 vmC3w (fun _ => false) 0 0 1 (by decide) (by decide)
    (by decide) (by decide) (by decide) (by decide)
  have h2 := alu_add_sub_spec.2 vmC3w2 (fun _ => false) 0 0 1 (by decide) (by decide)
    (by decide) (by decide) (by decide) (by decide) (by decide)
  exact ⟨⟨h1.1, h1.2, by decide, by decide⟩, ⟨h2.1, h2.2, by decide, by decide⟩⟩

/-- C10: when the destination register of `8xy4` is `VF` itself (`x = 0xF`),
the final value of `VF` is the wrapped 8-bit sum `(VF + Vy) % 256` — the
carry flag written first is overwritten by the result write. -/
theorem add_into_vf (vm : VM) (key : Nat → Bool) (rnd : Nat) (y : Nat) (hy : y < 16)
    (hf : fetch vm.st = 0x8000 + 256 * 15 + 16 * y + 4) :
    (step vm key rnd).1.st.v 15 = (vm.st.v 15 + vm.st.v y) % 256 := by
  rw [step_eq, exec_alu vm key rnd _ (by omega)]
  have h16 : fetch vm.st % 16 = 4 := by omega
  have hx : fetch vm.st / 256 % 16 = 15 := by omega
  have hyy : fetch vm.st / 16 % 16 = y := by omega
  simp only [h16, hx, hyy, alu]
  norm_num [upd]

theorem add_into_vf_witness :
    (1 : Nat) < 16 ∧
    fetch vmC10.st = 0x8000 + 256 * 15 + 16 * 1 + 4 ∧
    (step vmC10 (fun _ => false) 0).1.st.v 15 = (vmC10.st.v 15 + vmC10.st.v 1) % 256 ∧
    (vmC10.st.v 15 + vmC10.st.v 1) % 256 = 0 :=
  ⟨by decide, by decide,
   add_into_vf vmC10 (fun _ => false) 0 1 (by decide) (by decide), by decide⟩

theorem step_draw_fb (vm : VM) (key : Nat → Bool) (rnd : Nat) (x y n : Nat)
    (hx : x < 16) (hy : y < 16) (hn : n < 16)
    (hf : fetch vm.st = 0xD000 + 256 * x + 16 * y + n) :
    (step vm key rnd).1.fb =
      (drawSprite vm.st.mem vm.st.I (vm.st.v x % 64) (vm.st.v y % 32) n vm.fb).1 := by
  have hxd : fetch vm.st / 256 % 16 = x := by omega
  have hyd : fetch vm.st / 16 % 16 = y := by omega
  have hnd : fetch vm.st % 16 = n := by omega
  rw [step_eq, exec_draw vm key rnd _ (by omega), hxd, hyd, hnd]

theorem step_draw_v (vm : VM) (key : Nat → Bool) (rnd : Nat) (x y n : Nat)
    (hx : x < 16) (hy : y < 16) (hn : n < 16)
    (hf : fetch vm.st = 0xD000 + 256 * x + 16 * y + n) :
    (step vm key rnd).1.st.v =
      upd vm.st.v 15
        ((drawSprite vm.st.mem vm.st.I (vm.st.v x % 64) (vm.st.v y % 32) n vm.fb).2) := by
  have hxd : fetch vm.st / 256 % 16 = x := by omega
  have hyd : fetch vm.st / 16 % 16 = y := by omega
  have hnd : fetch vm.st % 16 = n := by omega
  rw [step_eq, exec_draw vm key rnd _ (by omega), hxd, hyd, hnd]

theorem step_draw_mem (vm : VM) (key : Nat → Bool) (rnd : Nat)
    (hf : fetch vm.st / 4096 = 13) :
    (step vm key rnd).1.st.mem = vm.st.mem := by
  rw [step_eq, exec_draw vm key rnd _ hf]

theorem step_draw_I (vm : VM) (key : Nat → Bool) (rnd : Nat)
    (hf : fetch vm.st / 4096 = 13) :
    (step vm key rnd).1.st.I = vm.st.I := by
  rw [step_eq, exec_draw vm key rnd _ hf]

/-- C5: a `Dxyn` draw XORs each of the `n × 8` sprite bits into the pixel at
the horizontally mod-64 and vertically mod-32 wrapped coordinate (never
clipping), and VF is computed once for the whole sprite: it ends 1 exactly
when some set sprite bit lands on a pixel that already read 1, and 0
otherwise. -/
theorem draw_wrap_xor_collision (vm : VM) (key : Nat → Bool) (rnd : Nat) (x y n : Nat)
    (hx : x < 16) (hy : y < 16) (hn : n < 16)
    (hf : fetch vm.st = 0xD000 + 256 * x + 16 * y + n) :
    (∀ r c, r < n → c < 8 →
       (step vm key rnd).1.fb
           (fbIdx ((vm.st.v x % 64 + c) % 64) ((vm.st.v y % 32 + r) % 32)) =
         vm.fb (fbIdx ((vm.st.v x % 64 + c) % 64) ((vm.st.v y % 32 + r) % 32)) ^^^
           (if vm.st.mem (vm.st.I + r) % 256 &&& (0x80 >>> c) ≠ 0 then 1 else 0)) ∧
    ((step vm key rnd).1.st.v 15 = 1 ↔
       ∃ r, ∃ c, r < n ∧ c < 8 ∧ vm.st.mem (vm.st.I + r) % 256 &&& (0x80 >>> c) ≠ 0 ∧
         vm.fb (fbIdx ((vm.st.v x % 64 + c) % 64) ((vm.st.v y % 32 + r) % 32)) = 1) ∧
    ((step vm key rnd).1.st.v 15 = 0 ∨ (step vm key rnd).1.st.v 15 = 1) := by
  have hfb := step_draw_fb vm key rnd x y n hx hy hn hf
  have hv := step_draw_v vm key rnd x y n hx hy hn hf
  refine ⟨?_, ?_, ?_⟩
  · intro r c hr hc
    rw [hfb]
    exact drawSprite_pix vm.st.mem vm.st.I (vm.st.v x % 64) (vm.st.v y % 32) n vm.fb
      (by omega) r c hr hc
  · rw [hv, upd_apply, if_pos rfl]
    exact (drawSprite_vf vm.st.mem vm.st.I (vm.st.v x % 64) (vm.st.v y % 32) n vm.fb
      (by omega)).1
  · rw [hv, upd_apply, if_pos rfl]
    exact (drawSprite_vf vm.st.mem vm.st.I (vm.st.v x % 64) (vm.st.v y % 32) n vm.fb
      (by omega)).2

theorem draw_wrap_xor_collision_witness :
    (fetch vmC5.st = 0xD000 + 256 * 0 + 16 * 1 + 1) ∧
    fbIdx ((vmC5.st.v 0 % 64 + 4) % 64) ((vmC5.st.v 1 % 32 + 0) % 32) = 0 ∧
    ((step vmC5 (fun _ => false) 0).1.fb
        (fbIdx ((vmC5.st.v 0 % 64 + 4) % 64) ((vmC5.st.v 1 % 32 + 0) % 32)) =
      vmC5.fb (fbIdx ((vmC5.st.v 0 % 64 + 4) % 64) ((vmC5.st.v 1 % 32 + 0) % 32)) ^^^
        (if vmC5.st.mem (vmC5.st.I + 0) % 256 &&& (0x80 >>> 4) ≠ 0 then 1 else 0)) ∧
    ((step vmC5 (fun _ => false) 0).1.st.v 15 = 0 ∨
      (step vmC5 (fun _ => false) 0).1.st.v 15 = 1) := by
  have h := draw_wrap_xor_collision vmC5 (fun _ => false) 0 0 1 1
    (by decide) (by decide) (by decide) (by decide)
  exact ⟨by decide, by decide, h.1 0 4 (by decide) (by decide), h.2.2⟩

/-- C6 counterexample: the claim is false for a framebuffer in which a
targeted pixel already reads 1.  After `A208 D011` the pixel (0,0) is set
(`vmC6c`); executing the identical `D011` twice more (same sprite byte
`0x80`, same I, same V0/V1) leaves the pixel SET again (`vmC6e.fb 0 = 1`,
not cleared) and the second draw of the pair reports NO collision
(`v 15 = 0`), because the first draw of the pair zeroed the pixel. -/
theorem draw_twice_occupied_cex :
    vmC6c.fb 0 = 1 ∧ vmC6e.fb 0 = 1 ∧ vmC6e.st.v 15 = 0 ∧ vmC6d.st.v 15 = 1 := by
  decide

/-- C6 (amended): for a sprite with at least one set bit, drawn twice in
succession with identical sprite bytes, I, Vx and Vy, starting from a
framebuffer in which every pixel targeted by a set sprite bit reads 0: the
double draw restores the whole framebuffer (so every touched pixel is
cleared back to 0) and the second draw reports collision (VF = 1). -/
theorem draw_twice_restores (vm : VM) (key : Nat → Bool) (rnd : Nat) (x y n : Nat)
    (hx : x < 16) (hy : y < 16) (hn : n < 16)
    (hf1 : fetch vm.st = 0xD000 + 256 * x + 16 * y + n)
    (hf2 : fetch ((step vm key rnd).1.st) = 0xD000 + 256 * x + 16 * y + n)
    (hvx : (step vm key rnd).1.st.v x = vm.st.v x)
    (hvy : (step vm key rnd).1.st.v y = vm.st.v y)
    (hbit : ∃ r, ∃ c, r < n ∧ c < 8 ∧ vm.st.mem (vm.st.I + r) % 256 &&& (0x80 >>> c) ≠ 0)
    (hclear : ∀ r c, r < n → c < 8 → vm.st.mem (vm.st.I + r) % 256 &&& (0x80 >>> c) ≠ 0 →
       vm.fb (fbIdx ((vm.st.v x % 64 + c) % 64) ((vm.st.v y % 32 + r) % 32)) = 0) :
    (∀ i, (step (step vm key rnd).1 key rnd).1.fb i = vm.fb i) ∧
    (∀ r c, r < n → c < 8 → vm.st.mem (vm.st.I + r) % 256 &&& (0x80 >>> c) ≠ 0 →
       (step (step vm key rnd).1 key rnd).1.fb
         (fbIdx ((vm.st.v x % 64 + c) % 64) ((vm.st.v y % 32 + r) % 32)) = 0) ∧
    (step (step vm key rnd).1 key rnd).1.st.v 15 = 1 := by
  have hfb1 := step_draw_fb vm key rnd x y n hx hy hn hf1
  have hmem1 := step_draw_mem vm key rnd (by omega)
  have hI1 := step_draw_I vm key rnd (by omega)
  have hfb2 := step_draw_fb ((step vm key rnd).1) key rnd x y n hx hy hn hf2
  have hv2 := step_draw_v ((step vm key rnd).1) key rnd x y n hx hy hn hf2
  rw [hmem1, hI1, hvx, hvy, hfb1] at hfb2 hv2
  have hone : ∀ r c, r < n → c < 8 →
      vm.st.mem (vm.st.I + r) % 256 &&& (0x80 >>> c) ≠ 0 →
      (drawSprite vm.st.mem vm.st.I (vm.st.v x % 64) (vm.st.v y % 32) n vm.fb).1
        (fbIdx ((vm.st.v x % 64 + c) % 64) ((vm.st.v y % 32 + r) % 32)) = 1 := by
    intro r c hr hc hb
    rw [drawSprite_pix vm.st.mem vm.st.I (vm.st.v x % 64) (vm.st.v y % 32) n vm.fb
      (by omega) r c hr hc, if_pos hb, hclear r c hr hc hb]
    rfl
  have hrest : ∀ i, (step (step vm key rnd).1 key rnd).1.fb i = vm.fb i := by
    intro i
    rw [hfb2]
    by_cases hcase : ∃ r, ∃ c, r < n ∧ c < 8 ∧
        vm.st.mem (vm.st.I + r) % 256 &&& (0x80 >>> c) ≠ 0 ∧
        i = fbIdx ((vm.st.v x % 64 + c) % 64) ((vm.st.v y % 32 + r) % 32)
    · obtain ⟨r, c, hr, hc, hb, hi⟩ := hcase
      subst hi
      rw [drawSprite_pix vm.st.mem vm.st.I (vm.st.v x % 64) (vm.st.v y % 32) n _
        (by omega) r c hr hc, if_pos hb,
        drawSprite_pix vm.st.mem vm.st.I (vm.st.v x % 64) (vm.st.v y % 32) n vm.fb
        (by omega) r c hr hc, if_pos hb, Nat.xor_assoc]
      simp
    · have hi : ∀ r c, r < n → c < 8 →
          vm.st.mem (vm.st.I + r) % 256 &&& (0x80 >>> c) ≠ 0 →
          i ≠ fbIdx ((vm.st.v x % 64 + c) % 64) ((vm.st.v y % 32 + r) % 32) :=
        fun r c hr hc hb hieq => hcase ⟨r, c, hr, hc, hb, hieq⟩
      rw [drawSprite_untouched vm.st.mem vm.st.I (vm.st.v x % 64) (vm.st.v y % 32) n _
        (by omega) i hi,
        drawSprite_untouched vm.st.mem vm.st.I (vm.st.v x % 64) (vm.st.v y % 32) n vm.fb
        (by omega) i hi]
  refine ⟨hrest, ?_, ?_⟩
  · intro r c hr hc hb
    rw [hrest]
    exact hclear r c hr hc hb
  · rw [hv2, upd_apply, if_pos rfl]
    obtain ⟨r, c, hr, hc, hb⟩ := hbit
    exact (drawSprite_vf vm.st.mem vm.st.I (vm.st.v x % 64) (vm.st.v y % 32) n _
      (by omega)).1.mpr ⟨r, c, hr, hc, hb, hone r c hr hc hb⟩

theorem draw_twice_restores_witness :
    (fetch vmC6w.st = 0xD000 + 256 * 0 + 16 * 1 + 1) ∧
    vmC6w.st.mem (vmC6w.st.I + 0) % 256 &&& (0x80 >>> 0) ≠ 0 ∧
    (step (step vmC6w (fun _ => false) 0).1 (fun _ => false) 0).1.fb (fbIdx 0 0) =
      vmC6w.fb (fbIdx 0 0) ∧
    (step (step vmC6w (fun _ => false) 0).1 (fun _ => false) 0).1.st.v 15 = 1 := by
  have h := draw_twice_restores vmC6w (fun _ => false) 0 0 1 1
    (by decide) (by decide) (by decide) (by decide) (by decide) (by decide) (by decide)
    ⟨0, 0, by decide, by decide, by decide⟩
    (fun r c _ _ _ => rfl)
  exact ⟨by decide, by decide, h.1 (fbIdx 0 0), h.2.2⟩

/-- C8: executing `Fx55` and then immediately `Fx65` with the same `x` (the
store leaves `I` unchanged, so both run with the same `I`) restores
registers `V0..Vx` to their values before the pair. -/
theorem store_load_roundtrip (vm : VM) (key : Nat → Bool) (rnd : Nat) (x : Nat)
    (hx : x < 16)
    (hf1 : fetch vm.st = 0xF000 + 256 * x + 0x55)
    (hf2 : fetch ((step vm key rnd).1.st) = 0xF000 + 256 * x + 0x65) :
    (step vm key rnd).1.st.I = vm.st.I ∧
    (∀ i, i ≤ x → (step ((step vm key rnd).1) key rnd).1.st.v i = vm.st.v i) := by
  have e1 : step vm key rnd =
      ({ vm with st := { vm.st with
          pc := (vm.st.pc + 2) % 65536,
          mem := storeRegs vm.st.mem vm.st.I vm.st.v x } }, false) := by
    rw [step_eq]
    exact exec_store vm key rnd _ x (by omega) (by omega) (by omega)
  rw [e1] at hf2 ⊢
  refine ⟨rfl, fun i hi => ?_⟩
  rw [step_eq, exec_load65 _ key rnd _ x (by omega) (by omega) (by omega)]
  show loadRegs vm.st.v (storeRegs vm.st.mem vm.st.I vm.st.v x) vm.st.I x i = vm.st.v i
  rw [loadRegs_apply, if_pos (by omega), storeRegs_apply, if_pos (by omega)]
  have hsub : vm.st.I + i - vm.st.I = i := by omega
  rw [hsub]

theorem store_load_roundtrip_witness :
    (fetch vmC8.st = 0xF000 + 256 * 2 + 0x55) ∧
    (fetch ((step vmC8 (fun _ => false) 0).1.st) = 0xF000 + 256 * 2 + 0x65) ∧
    (step vmC8 (fun _ => false) 0).1.st.I = vmC8.st.I ∧
    (step ((step vmC8 (fun _ => false) 0).1) (fun _ => false) 0).1.st.v 2 = vmC8.st.v 2 := by
  have h := store_load_roundtrip vmC8 (fun _ => false) 0 2 (by decide) (by decide) (by decide)
  exact ⟨by decide, by decide, h.1, h.2 2 (by decide)⟩

/-- C1: the code violates the suspension half of the claim.  Executing
`F10A` does set the wait latch (`waitKey = true`, `waitReg = 1`) and leaves
V1 untouched, but `step()` neither consults the latch nor is suppressed by
the driver (`App::run` invokes `vm.step(keys)` unconditionally), so the very
next `step()` — with no key-down event delivered — executes the following
opcode `612A` and mutates register 1 while the machine is still "waiting". -/
theorem fx0a_no_suspension :
    vmC1b.waitKey = true ∧ vmC1b.waitReg = 1 ∧ vmC1b.st.v 1 = 0 ∧
    vmC1c.waitKey = true ∧ vmC1c.st.v 1 = 0x2A := by
  decide

/-- C2: the opcode executor is not total on reachable states.  Loading the
ROM `1F FF` and executing its jump yields the reachable state `pc = 0xFFF`,
where the next fetch reads `mem[0xFFF]` and `mem[0x1000]` — index 4096 is
outside the 4096-byte memory (`stepAccessOk` is the in-bounds predicate for
exactly the indices `step()` touches). -/
theorem step_fetch_out_of_bounds :
    stepAccessOk vmC2a = true ∧ vmC2b.st.pc = 0xFFF ∧ stepAccessOk vmC2b = false := by
  decide

end Chip8
